import Mathlib

/-!
Verification of the Excel table-processing core of `fastapi_excel_app.py`.

The embedding models a spreadsheet cell as a tagged union (empty / text /
number), a sheet as a list of rows of cells, and the in-memory table store
as an association list from table name to cleaned grid with Python-dict
insertion semantics (assignment replaces the value of an existing key in
place, otherwise appends).

Python floats are modelled as exact rationals; `float(...)` parsing of a
string is modelled on finite decimal literals with an optional exponent
(the special forms inf/nan and digit-group underscores are not modelled).
Python `str.strip()` is modelled as removing leading and trailing
whitespace characters, and `str(...)` applied to a numeric cell is
abstracted as the rational's standard rendering; both queries use the very
same coercion, which is all the claims depend on.
-/

set_option autoImplicit false

/-- A spreadsheet cell value as seen by pandas after `read_excel(header=None)`:
`empty` is a NaN cell (`pd.notna` is false exactly here), `text` a Python
`str` cell, `num` a numeric cell. -/
inductive Cell where
  | empty
  | text (s : String)
  | num (q : Rat)
deriving Repr, DecidableEq

/-- One row of a sheet. -/
abbrev Row := List Cell

/-- A sheet grid: ordered rows of ordered cells. -/
abbrev Grid := List Row

/-- Python `str.strip()`: drop leading and trailing whitespace characters. -/
def pyStrip (cs : List Char) : List Char :=
  ((cs.dropWhile Char.isWhitespace).reverse.dropWhile Char.isWhitespace).reverse

/-- Python `str.strip()` on a `String`. -/
def pyStripStr (s : String) : String :=
  String.mk (pyStrip s.toList)

/-- `value.replace('%', '').replace('$', '').replace(',', '')`: removing every
occurrence of a single character is removal of those characters. -/
def stripSpecial (cs : List Char) : List Char :=
  cs.filter (fun c => !(c == '%' || c == '$' || c == ','))

/-- Numeric value of a block of decimal digit characters. -/
def digitsVal (ds : List Char) : Nat :=
  ds.foldl (fun a c => 10 * a + (c.toNat - 48)) 0

/-- Apply an optional trailing exponent part to a parsed mantissa; any other
trailing characters make the parse fail, as in Python `float`. -/
def applyExp (m : Rat) (rest : List Char) : Option Rat :=
  match rest with
  | [] => some m
  | e :: rest1 =>
      if e == 'e' || e == 'E' then
        let signRest : Bool × List Char :=
          match rest1 with
          | '-' :: r => (true, r)
          | '+' :: r => (false, r)
          | _ => (false, rest1)
        let ds := signRest.2.takeWhile Char.isDigit
        let rem := signRest.2.dropWhile Char.isDigit
        if ds.isEmpty || !rem.isEmpty then none
        else some (if signRest.1 then m / 10 ^ digitsVal ds else m * 10 ^ digitsVal ds)
      else none

/-- Python `float(s)` on an already-stripped string, modelled for finite
decimal literals `[+-]digits[.digits][(e|E)[+-]digits]`; `none` is a
`ValueError`. -/
def parseFloat? (cs : List Char) : Option Rat :=
  let signRest : Rat × List Char :=
    match cs with
    | '-' :: r => (-1, r)
    | '+' :: r => (1, r)
    | _ => (1, cs)
  let ip := signRest.2.takeWhile Char.isDigit
  let rest := signRest.2.dropWhile Char.isDigit
  match rest with
  | '.' :: rest1 =>
      let fp := rest1.takeWhile Char.isDigit
      let rest2 := rest1.dropWhile Char.isDigit
      if ip.isEmpty && fp.isEmpty then none
      else applyExp (signRest.1 * ((digitsVal ip : Rat) + (digitsVal fp : Rat) / (10 : Rat) ^ fp.length)) rest2
  | _ =>
      if ip.isEmpty then none
      else applyExp (signRest.1 * (digitsVal ip : Rat)) rest

/-- `clean_value = value.replace('%', '').replace('$', '').replace(',', '').strip()`. -/
def cleanValue (s : String) : List Char :=
  pyStrip (stripSpecial s.toList)

/-- Python `str(cell)` as used for row labels and row matching: a text cell
is itself; a numeric cell's rendering is abstracted as the rational's
standard rendering (both query operations use this same function, which is
what the claims depend on); an empty cell never reaches this coercion in
the source (it is guarded by `pd.notna`). -/
def cellToStr : Cell → String
  | Cell.text s => s
  | Cell.num q => toString q
  | Cell.empty => ""

/-- The contribution of one value cell to `calculate_row_sum`: a NaN cell is
skipped by the `pd.notna` guard; a text cell is stripped and parsed, with
an empty remainder skipped and a `ValueError` caught and skipped; a numeric
cell is `float(value)` itself.  Skipping contributes 0 to the running sum. -/
def cellContribution (v : Cell) : Rat :=
  match v with
  | Cell.empty => 0
  | Cell.text s =>
      let clean_value := cleanValue s
      if clean_value.isEmpty then 0
      else
        match parseFloat? clean_value with
        | some x => x
        | none => 0
  | Cell.num q => q

/-- A row is entirely empty (all cells NaN): the rows `dropna(how='all')`
removes. -/
def rowAllEmpty (r : Row) : Bool :=
  r.all (fun c => c == Cell.empty)

/-- `df.dropna(how='all')`: remove the rows whose cells are all empty. -/
def dropEmptyRows (g : Grid) : Grid :=
  g.filter (fun r => !(rowAllEmpty r))

/-- Number of columns of a grid (pandas grids are rectangular; the max
totalizes the notion, treating short rows as padded with empty cells). -/
def gridWidth (g : Grid) : Nat :=
  g.foldr (fun r w => max r.length w) 0

/-- Column `j` holds a non-empty cell in some row of `g`. -/
def colNonEmpty (g : Grid) (j : Nat) : Bool :=
  g.any (fun r => !(r.getD j Cell.empty == Cell.empty))

/-- The column indices `df.dropna(axis=1, how='all')` keeps, in order. -/
def keptCols (g : Grid) : List Nat :=
  (List.range (gridWidth g)).filter (colNonEmpty g)

/-- `df.dropna(axis=1, how='all')`: project every row onto the kept columns. -/
def dropEmptyCols (g : Grid) : Grid :=
  g.map (fun r => (keptCols g).map (fun j => r.getD j Cell.empty))

/-- `clean_table`: drop all-empty rows, then all-empty columns of what
remains; `reset_index(drop=True)` renumbers the row labels contiguously,
which is the identity on a positional list of rows. -/
def clean_table (g : Grid) : Grid :=
  dropEmptyCols (dropEmptyRows g)

/-- The table-start test of `identify_tables_in_sheet`:
`pd.notna(first_cell) and isinstance(first_cell, str) and first_cell.strip()`
(a zero-length row yields `first_cell = None`, which is not a marker). -/
def isMarker (row : Row) : Bool :=
  match row.head? with
  | some (Cell.text s) => !(pyStrip s.toList).isEmpty
  | _ => false

/-- `first_cell.strip()`: the name a marker row derives. -/
def markerName (row : Row) : String :=
  match row.head? with
  | some (Cell.text s) => pyStripStr s
  | _ => ""

/-- Python dict assignment `d[k] = v`: replace the value of an existing key
in place, otherwise append the new binding. -/
def dinsert (k : String) (v : Grid) : List (String × Grid) → List (String × Grid)
  | [] => [(k, v)]
  | p :: rest => if p.1 == k then (k, v) :: rest else p :: dinsert k v rest

/-- `df.iloc[s:e]` on positional row indices. -/
def listSlice (g : Grid) (s e : Nat) : Grid :=
  (g.drop s).take (e - s)

/-- The scanning loop of `identify_tables_in_sheet`: `rows` are the rows not
yet visited, `i` the positional index of the first of them, `cur` the open
table (`current_table_name`, `current_table_start`), `tables` the dict built
so far.  On a marker the open table is closed as `df.iloc[start:i]`; at the
end of the scan an open table is closed as `df.iloc[start:]`. -/
def segmentFrom (df : Grid) : List Row → Nat → Option (String × Nat) →
    List (String × Grid) → List (String × Grid)
  | [], _, cur, tables =>
      match cur with
      | some (name, start) => dinsert name (clean_table (listSlice df start df.length)) tables
      | none => tables
  | r :: rest, i, cur, tables =>
      if isMarker r then
        let tables1 :=
          match cur with
          | some (name, start) => dinsert name (clean_table (listSlice df start i)) tables
          | none => tables
        segmentFrom df rest (i + 1) (some (markerName r, i)) tables1
      else
        segmentFrom df rest (i + 1) cur tables

/-- The sheet-derived fallback table name:
`f"Sheet_{sheet_name}" if sheet_name else "Default_Table"`. -/
def fallbackName (sheet_name : String) : String :=
  if sheet_name ≠ "" then "Sheet_" ++ sheet_name else "Default_Table"

/-- `identify_tables_in_sheet(df, sheet_name)`: run the scan; if it produced
no tables, the whole (cleaned) sheet becomes one table under a sheet-derived
fallback name (`if sheet_name` is Python truthiness of the string). -/
def identify_tables_in_sheet (df : Grid) (sheet_name : String) : List (String × Grid) :=
  let tables := segmentFrom df df 0 none []
  if tables.isEmpty then [(fallbackName sheet_name, clean_table df)]
  else tables

/-- `table_name in self.tables` / `self.tables[table_name]`. -/
def storeLookup (d : List (String × Grid)) (k : String) : Option Grid :=
  (d.find? (fun p => p.1 == k)).map Prod.snd

/-- `self.tables.update(tables_in_sheet)`: dict update, binding by binding in
insertion order of the argument. -/
def updateStore (d : List (String × Grid)) (entries : List (String × Grid)) :
    List (String × Grid) :=
  entries.foldl (fun acc p => dinsert p.1 p.2 acc) d

/-- `process_tables`: fold `identify_tables_in_sheet` over the loaded sheets
(in sheet-iteration order) into one store, via dict `update`. -/
def buildStore (wb : List (String × Grid)) : List (String × Grid) :=
  wb.foldl (fun acc sh => updateStore acc (identify_tables_in_sheet sh.2 sh.1)) []

/-- The two distinct 404 results of the query operations. -/
inductive QueryError where
  | tableNotFound
  | rowNotFound
deriving Repr, DecidableEq

/-- `get_table_row_names`: 404 if the table is absent; otherwise the `str`
coercion of every non-NaN first cell, in row order (`df.empty` returning `[]`
coincides with the loop producing nothing). -/
def get_table_row_names (tables : List (String × Grid)) (table_name : String) :
    Except QueryError (List String) :=
  match storeLookup tables table_name with
  | none => Except.error QueryError.tableNotFound
  | some df =>
      if df.isEmpty then Except.ok []
      else
        Except.ok (df.filterMap (fun row =>
          match row.head? with
          | some c => if c == Cell.empty then none else some (cellToStr c)
          | none => none))

/-- The row scan of `calculate_row_sum`: the first row whose first cell is
non-NaN and whose `str` coercion equals `row_name`. -/
def findRow (df : Grid) (row_name : String) : Option Row :=
  df.find? (fun row =>
    match row.head? with
    | some c => !(c == Cell.empty) && (cellToStr c == row_name)
    | none => false)

/-- `calculate_row_sum`: 404 if the table is absent, 404 (row) if no row
matches, else the running sum of the value cells (all but the first) of the
matched row. -/
def calculate_row_sum (tables : List (String × Grid)) (table_name row_name : String) :
    Except QueryError Rat :=
  match storeLookup tables table_name with
  | none => Except.error QueryError.tableNotFound
  | some df =>
      match findRow df row_name with
      | none => Except.error QueryError.rowNotFound
      | some target_row =>
          Except.ok ((target_row.drop 1).foldl (fun acc v => acc + cellContribution v) 0)

/-! ## Spec-side definitions

The following definitions transcribe the SPECIFICATION's wording (not the
source) and exist to be compared with the source-derived definitions above:
the segmentation described as the list of marker indices and the sub-grids
between consecutive markers, the row/column index characterization of
cleaning, the last-write-wins reading of the store, and the spec's
description of `sum_row`. -/

/-- Spec: indices (from positional index `i` on) of the table-start marker
rows, in order. -/
def markerIdxsFrom : Nat → List Row → List Nat
  | _, [] => []
  | i, r :: rest =>
      if isMarker r then i :: markerIdxsFrom (i + 1) rest
      else markerIdxsFrom (i + 1) rest

/-- Spec: all marker row indices of a sheet grid, ascending. -/
def markerIdxs (g : Grid) : List Nat :=
  markerIdxsFrom 0 g

/-- Spec: the table name derived at row `i` (the trimmed marker text). -/
def nameAt (g : Grid) (i : Nat) : String :=
  markerName (g.getD i [])

/-- Spec: given the ascending marker indices, each marker `j` yields the
sub-grid of rows `[j, i)` up to the next marker `i`, and the last marker
yields rows `[j, end-of-sheet)`. -/
def segsOf (g : Grid) : List Nat → List (String × Grid)
  | [] => []
  | [i] => [(nameAt g i, listSlice g i g.length)]
  | i :: j :: rest => (nameAt g i, listSlice g i j) :: segsOf g (j :: rest)

/-- Spec: the named raw (pre-clean) sub-grids of a sheet, in marker order. -/
def segmentsSpec (g : Grid) : List (String × Grid) :=
  segsOf g (markerIdxs g)

/-- The start index carried by an open table, as a (zero- or one-element)
prefix of marker indices. -/
def curStarts : Option (String × Nat) → List Nat
  | some q => [q.2]
  | none => []

/-- Spec: what one sheet contributes to the store, in occurrence order: the
cleaned sub-grid of every marker, or the single fallback table of a
marker-less sheet. -/
def sheetSegs (g : Grid) (sheet_name : String) : List (String × Grid) :=
  if markerIdxs g = [] then [(fallbackName sheet_name, clean_table g)]
  else (segmentsSpec g).map (fun p => (p.1, clean_table p.2))

/-- Spec: every named table the whole workbook produces, in occurrence order
(row order within a sheet, sheet-iteration order across sheets). -/
def allSegments : List (String × Grid) → List (String × Grid)
  | [] => []
  | sh :: rest => sheetSegs sh.2 sh.1 ++ allSegments rest

/-- Spec: the LAST binding of a name in an occurrence-ordered association
list — the last-write-wins reading of duplicate names. -/
def lookupLast : List (String × Grid) → String → Option Grid
  | [], _ => none
  | p :: rest, k => (lookupLast rest k).or (if p.1 == k then some p.2 else none)

/-- Spec: the row indices cleaning keeps: the rows that are not entirely
empty, in ascending order. -/
def keptRows (g : Grid) : List Nat :=
  (List.range g.length).filter (fun i => !(rowAllEmpty (g.getD i [])))

/-- Spec: the row label of a row — the text representation of its first
cell, provided that cell is non-empty. -/
def rowLabel? (row : Row) : Option String :=
  match row.head? with
  | some c => if c == Cell.empty then none else some (cellToStr c)
  | none => none

/-- Spec: strip the characters `%`, `$`, `,` and surrounding whitespace. -/
def specStrip (s : String) : List Char :=
  pyStrip (s.toList.filter (fun c => decide (c ≠ '%') && decide (c ≠ '$') && decide (c ≠ ',')))

/-- Spec: numeric coercion of one value cell — a numeric cell is used
directly; a text cell is stripped and the remainder parsed as a float; an
empty remainder or a failed parse contributes 0 (as does a blank cell). -/
def specCellValue : Cell → Rat
  | Cell.num q => q
  | Cell.text s =>
      let t := specStrip s
      if t.isEmpty then 0 else (parseFloat? t).getD 0
  | Cell.empty => 0

/-- Spec: `sum_row` as worded in the specification — `NotFound(table)` for
an absent table; scan rows in order for the first whose label equals
`row_name`, `NotFound(row)` if none; else the sum of the coerced value
cells (all but the first). -/
def sum_row_spec (tables : List (String × Grid)) (table_name row_name : String) :
    Except QueryError Rat :=
  match storeLookup tables table_name with
  | none => Except.error QueryError.tableNotFound
  | some df =>
      match df.find? (fun row => rowLabel? row == some row_name) with
      | none => Except.error QueryError.rowNotFound
      | some row => Except.ok ((row.drop 1).map specCellValue).sum

/-! ## Lemmas -/

/-- Unfolding of the text-cell branch of `cellContribution`. -/
theorem cellContribution_text (s : String) :
    cellContribution (Cell.text s) =
      (if (cleanValue s).isEmpty then 0
       else
        match parseFloat? (cleanValue s) with
        | some x => x
        | none => 0) := rfl

example : cellContribution (Cell.text "abc") = 0 := by decide
example :
    identify_tables_in_sheet
      [[Cell.text "Revenue", Cell.text "100", Cell.text "200"],
       [Cell.text "Costs", Cell.text "-50", Cell.text "-30"]] "S" =
    [("Revenue", [[Cell.text "Revenue", Cell.text "100", Cell.text "200"]]),
     ("Costs", [[Cell.text "Costs", Cell.text "-50", Cell.text "-30"]])] := by decide
example :
    identify_tables_in_sheet
      [[Cell.num 1, Cell.num 2], [Cell.empty, Cell.empty], [Cell.empty, Cell.num 3]] "S" =
    [("Sheet_S", [[Cell.num 1, Cell.num 2], [Cell.empty, Cell.num 3]])] := by decide
example : buildStore [("Empty", ([] : Grid))] = [("Sheet_Empty", [])] := by decide

/-- Folding `acc + contribution` from an accumulator equals the accumulator
plus the sum of the mapped contributions. -/
theorem foldl_add_contribution (f : Cell → Rat) (l : List Cell) :
    ∀ a : Rat, l.foldl (fun acc v => acc + f v) a = a + (l.map f).sum := by
  induction l with
  | nil => intro a; simp
  | cons c l ih => intro a; simp [ih, add_assoc]

/-- A list filter, rewritten as the selection of the kept positions in
ascending order. -/
theorem filter_eq_map_getD {α : Type} (d : α) (p : α → Bool) (l : List α) :
    l.filter p =
      ((List.range l.length).filter (fun i => p (l.getD i d))).map (fun i => l.getD i d) := by
  induction l with
  | nil => simp
  | cons x xs ih =>
      have hfc : (List.range xs.length).filter ((fun i => p ((x :: xs).getD i d)) ∘ Nat.succ)
          = (List.range xs.length).filter (fun i => p (xs.getD i d)) :=
        List.filter_congr (by intro i _; simp [Function.comp_def])
      have hmc : ∀ M : List Nat,
          M.map ((fun i => (x :: xs).getD i d) ∘ Nat.succ) = M.map (fun i => xs.getD i d) := by
        intro M
        apply List.map_congr_left
        intro i _
        simp [Function.comp_def]
      rw [List.length_cons, List.range_succ_eq_map, List.filter_cons, List.filter_cons,
        List.getD_cons_zero, List.filter_map, hfc]
      cases hp : p x with
      | true =>
          rw [if_pos rfl, if_pos rfl, List.map_cons, List.map_map, hmc, ih]
          rw [List.getD_cons_zero]
      | false =>
          rw [if_neg (by simp), if_neg (by simp), List.map_map, hmc, ih]

/-- Dismantling `l.drop i = r :: rest`. -/
theorem drop_eq_cons_parts {α : Type} (d : α) :
    ∀ (l : List α) (i : Nat) (r : α) (rest : List α),
      l.drop i = r :: rest →
      l.getD i d = r ∧ l.drop (i + 1) = rest ∧ i < l.length := by
  intro l
  induction l with
  | nil => intro i r rest h; rw [List.drop_nil] at h; cases h
  | cons x xs ih =>
      intro i r rest h
      cases i with
      | zero =>
          rw [List.drop_zero] at h
          cases h
          exact ⟨rfl, by simp, by simp⟩
      | succ n =>
          rw [List.drop_succ_cons] at h
          obtain ⟨h1, h2, h3⟩ := ih n r rest h
          exact ⟨h1, by simpa using h2, by simpa using h3⟩

/-- Conversely, dropping at an in-range position exposes the element there. -/
theorem drop_eq_getD_cons {α : Type} (d : α) :
    ∀ (l : List α) (i : Nat), i < l.length → l.drop i = l.getD i d :: l.drop (i + 1) := by
  intro l
  induction l with
  | nil => intro i h; simp at h
  | cons x xs ih =>
      intro i h
      cases i with
      | zero => simp
      | succ n =>
          rw [List.drop_succ_cons, List.getD_cons_succ]
          exact ih n (by simpa using h)

/-- A slice `[s, e)` with `s` in range and `s < e` contains row `s`. -/
theorem getD_mem_listSlice (g : Grid) (s e : Nat) (hse : s < e) (hs : s < g.length) :
    g.getD s [] ∈ listSlice g s e := by
  unfold listSlice
  rw [drop_eq_getD_cons [] g s hs]
  have he : e - s = (e - s - 1) + 1 := by omega
  rw [he, List.take_succ_cons]
  exact List.mem_cons_self _ _

/-- `dropWhile` swallows a prefix made of satisfying elements. -/
theorem dropWhile_append_of_all {α : Type} (p : α → Bool) (w x : List α)
    (h : ∀ c ∈ w, p c = true) : (w ++ x).dropWhile p = x.dropWhile p := by
  induction w with
  | nil => simp
  | cons a w ih =>
      rw [List.cons_append, List.dropWhile_cons, h a (by simp)]
      exact ih (fun c hc => h c (by simp [hc]))

/-- Stripping is unaffected by extra whitespace on the left. -/
theorem pyStrip_ws_left (w x : List Char) (h : ∀ c ∈ w, Char.isWhitespace c = true) :
    pyStrip (w ++ x) = pyStrip x := by
  unfold pyStrip
  rw [dropWhile_append_of_all _ w x h]

/-- Stripping is unaffected by extra whitespace on the right. -/
theorem pyStrip_ws_right (x w : List Char) (h : ∀ c ∈ w, Char.isWhitespace c = true) :
    pyStrip (x ++ w) = pyStrip x := by
  unfold pyStrip
  rw [List.dropWhile_append]
  cases hd : x.dropWhile Char.isWhitespace with
  | nil =>
      rw [if_pos (by simp)]
      rw [List.dropWhile_eq_nil_iff.mpr (fun c hc => h c hc)]
  | cons y ys =>
      rw [if_neg (by simp)]
      rw [List.reverse_append]
      rw [dropWhile_append_of_all _ w.reverse (y :: ys).reverse
        (fun c hc => h c (List.mem_reverse.mp hc))]

/-- `stripSpecial` distributes over append. -/
theorem stripSpecial_append (a b : List Char) :
    stripSpecial (a ++ b) = stripSpecial a ++ stripSpecial b :=
  by simp [stripSpecial]

/-- A whitespace character is none of `%`, `$`, `,`, so `stripSpecial`
keeps it. -/
theorem stripSpecial_of_ws (w : List Char) (h : ∀ c ∈ w, Char.isWhitespace c = true) :
    stripSpecial w = w := by
  unfold stripSpecial
  apply List.filter_eq_self.mpr
  intro c hc
  have hw := h c hc
  by_contra hne
  have : (c == '%' || c == '$' || c == ',') = true := by
    cases hcc : (c == '%' || c == '$' || c == ',') with
    | true => rfl
    | false => exact absurd (by rw [hcc]; rfl) hne
  rcases Bool.or_eq_true_iff.mp this with hor | h3
  · rcases Bool.or_eq_true_iff.mp hor with h1 | h2
    · rw [eq_of_beq h1] at hw; cases hw
    · rw [eq_of_beq h2] at hw; cases hw
  · rw [eq_of_beq h3] at hw; cases hw

/-- Text-cell contribution depends only on the cleaned character list. -/
theorem cellContribution_congr (s t : String) (h : cleanValue s = cleanValue t) :
    cellContribution (Cell.text s) = cellContribution (Cell.text t) := by
  rw [cellContribution_text, cellContribution_text, h]

/-- Inserting one occurrence of `%`, `$` or `,` anywhere in a text cell does
not change the cleaned character list. -/
theorem cleanValue_insert_special (u v : List Char) (c : Char)
    (hc : c = '%' ∨ c = '$' ∨ c = ',') :
    cleanValue (String.mk (u ++ c :: v)) = cleanValue (String.mk (u ++ v)) := by
  unfold cleanValue
  have htl : ∀ l : List Char, (String.mk l).toList = l := fun l => rfl
  rw [htl, htl]
  have hsc : stripSpecial [c] = [] := by
    rcases hc with h | h | h <;> rw [h] <;> rfl
  have : u ++ c :: v = u ++ [c] ++ v := by simp
  rw [this, stripSpecial_append, stripSpecial_append, hsc, stripSpecial_append]
  simp

/-- Surrounding whitespace does not change the cleaned character list. -/
theorem cleanValue_surround_ws (w1 w2 s : List Char)
    (h1 : ∀ c ∈ w1, Char.isWhitespace c = true)
    (h2 : ∀ c ∈ w2, Char.isWhitespace c = true) :
    cleanValue (String.mk (w1 ++ s ++ w2)) = cleanValue (String.mk s) := by
  unfold cleanValue
  have htl : ∀ l : List Char, (String.mk l).toList = l := fun l => rfl
  rw [htl, htl]
  rw [stripSpecial_append, stripSpecial_append, stripSpecial_of_ws w1 h1,
    stripSpecial_of_ws w2 h2]
  rw [List.append_assoc, pyStrip_ws_left w1 (stripSpecial s ++ w2) h1,
    pyStrip_ws_right (stripSpecial s) w2 h2]

/-- Membership in a dict after assignment. -/
theorem mem_dinsert (k : String) (v : Grid) :
    ∀ (d : List (String × Grid)) (p : String × Grid),
      p ∈ dinsert k v d → p = (k, v) ∨ p ∈ d := by
  intro d
  induction d with
  | nil => intro p hp; simp [dinsert] at hp; left; exact hp
  | cons q rest ih =>
      intro p hp
      unfold dinsert at hp
      by_cases hq : (q.1 == k) = true
      · rw [if_pos hq] at hp
        rcases List.mem_cons.mp hp with h | h
        · left; exact h
        · right; exact List.mem_cons_of_mem _ h
      · rw [if_neg hq] at hp
        rcases List.mem_cons.mp hp with h | h
        · right; rw [h]; exact List.mem_cons_self _ _
        · rcases ih p h with h2 | h2
          · left; exact h2
          · right; exact List.mem_cons_of_mem _ h2

/-- Assignment never empties a dict. -/
theorem dinsert_ne_nil (k : String) (v : Grid) (d : List (String × Grid)) :
    dinsert k v d ≠ [] := by
  cases d with
  | nil => simp [dinsert]
  | cons q rest =>
      unfold dinsert
      by_cases hq : (q.1 == k) = true
      · rw [if_pos hq]; simp
      · rw [if_neg hq]; simp

/-- Lookup after assignment: the assigned key maps to the new value, other
keys are unaffected. -/
theorem storeLookup_dinsert (k : String) (v : Grid) :
    ∀ (d : List (String × Grid)) (q : String),
      storeLookup (dinsert k v d) q = if k == q then some v else storeLookup d q := by
  intro d
  induction d with
  | nil =>
      intro q
      cases hq : (k == q) with
      | true => simp [dinsert, storeLookup, List.find?, hq]
      | false => simp [dinsert, storeLookup, List.find?, hq]
  | cons p rest ih =>
      intro q
      unfold dinsert
      cases hp : (p.1 == k) with
      | true =>
          rw [if_pos rfl]
          have hpk : p.1 = k := eq_of_beq hp
          cases hq : (k == q) with
          | true => simp [storeLookup, List.find?, hq]
          | false => simp [storeLookup, List.find?, hq, hpk]
      | false =>
          rw [if_neg (by simp)]
          cases hq : (p.1 == q) with
          | true =>
              have hkq : (k == q) = false := by
                cases hkq : (k == q) with
                | false => rfl
                | true =>
                    rw [eq_of_beq hkq] at hp
                    rw [hq] at hp
                    cases hp
              simp [storeLookup, List.find?, hq, hkq]
          | false =>
              have hstep : storeLookup (p :: dinsert k v rest) q
                  = storeLookup (dinsert k v rest) q := by
                simp [storeLookup, List.find?, hq]
              rw [hstep, ih q]
              cases hk : (k == q) with
              | true => rw [if_pos rfl, if_pos rfl]
              | false =>
                  rw [if_neg (by simp), if_neg (by simp)]
                  simp [storeLookup, List.find?, hq]

/-- The keys of a store, in insertion order. -/
def storeKeys (d : List (String × Grid)) : List String :=
  d.map Prod.fst

/-- One-step unfolding of lookup. -/
theorem storeLookup_cons (p : String × Grid) (rest : List (String × Grid)) (k : String) :
    storeLookup (p :: rest) k = if p.1 == k then some p.2 else storeLookup rest k := by
  cases hp : (p.1 == k) with
  | true => simp [storeLookup, List.find?, hp]
  | false => simp [storeLookup, List.find?, hp]

/-- `lookupLast` splits over append, preferring the right part. -/
theorem lookupLast_append (a b : List (String × Grid)) (k : String) :
    lookupLast (a ++ b) k = (lookupLast b k).or (lookupLast a k) := by
  induction a with
  | nil => simp [lookupLast]
  | cons p a ih =>
      rw [List.cons_append]
      show (lookupLast (a ++ b) k).or _ = _
      rw [ih, Option.or_assoc]
      rfl

/-- Folding dict assignments over a list of bindings realizes last-write-wins
lookup over those bindings, falling back to the accumulator. -/
theorem storeLookup_foldl_dinsert (f : (String × Grid) → Grid) :
    ∀ (l acc : List (String × Grid)) (k : String),
      storeLookup (l.foldl (fun d q => dinsert q.1 (f q) d) acc) k =
        (lookupLast (l.map (fun q => (q.1, f q))) k).or (storeLookup acc k) := by
  intro l
  induction l with
  | nil => intro acc k; simp [lookupLast]
  | cons q l ih =>
      intro acc k
      rw [List.foldl_cons, ih, List.map_cons]
      show _ = ((lookupLast (l.map fun q => (q.1, f q)) k).or _).or _
      rw [storeLookup_dinsert, Option.or_assoc]
      congr 1
      cases hq : (q.1 == k) with
      | true => simp
      | false => simp

/-- Keys after an assignment: unchanged for an existing key, appended for a
new one. -/
theorem storeKeys_dinsert (k : String) (v : Grid) :
    ∀ d : List (String × Grid),
      storeKeys (dinsert k v d) =
        if k ∈ storeKeys d then storeKeys d else storeKeys d ++ [k] := by
  intro d
  induction d with
  | nil => simp [dinsert, storeKeys]
  | cons p rest ih =>
      unfold dinsert
      cases hp : (p.1 == k) with
      | true =>
          rw [if_pos rfl]
          have hpk : p.1 = k := eq_of_beq hp
          have hmem : k ∈ storeKeys (p :: rest) := by
            rw [storeKeys, List.map_cons, hpk]
            exact List.mem_cons_self _ _
          rw [if_pos hmem, storeKeys, storeKeys, List.map_cons, List.map_cons, hpk]
      | false =>
          rw [if_neg (by simp)]
          have hne : k ≠ p.1 := by
            intro he
            rw [he, beq_self_eq_true] at hp
            cases hp
          show p.1 :: storeKeys (dinsert k v rest) = _
          rw [ih]
          by_cases hk : k ∈ storeKeys rest
          · rw [if_pos hk, if_pos (by rw [storeKeys, List.map_cons]; exact List.mem_cons_of_mem _ hk)]
            rfl
          · have : k ∉ storeKeys (p :: rest) := by
              rw [storeKeys, List.map_cons]
              intro hmem
              rcases List.mem_cons.mp hmem with h | h
              · exact hne h
              · exact hk h
            rw [if_neg hk, if_neg this]
            rfl

/-- Assignment preserves key uniqueness. -/
theorem keysNodup_dinsert (k : String) (v : Grid) (d : List (String × Grid))
    (h : (storeKeys d).Nodup) : (storeKeys (dinsert k v d)).Nodup := by
  rw [storeKeys_dinsert]
  by_cases hk : k ∈ storeKeys d
  · rw [if_pos hk]; exact h
  · rw [if_neg hk]
    exact (List.Perm.nodup_iff (List.perm_append_singleton _ _)).mpr
      (List.nodup_cons.mpr ⟨hk, h⟩)

/-- Key uniqueness is an invariant of folding assignments. -/
theorem keysNodup_foldl_dinsert (f : (String × Grid) → Grid) :
    ∀ (l acc : List (String × Grid)), (storeKeys acc).Nodup →
      (storeKeys (l.foldl (fun d q => dinsert q.1 (f q) d) acc)).Nodup := by
  intro l
  induction l with
  | nil => intro acc h; exact h
  | cons q l ih =>
      intro acc h
      exact ih _ (keysNodup_dinsert _ _ _ h)

/-- A name outside a store's keys has no last binding. -/
theorem lookupLast_eq_none (k : String) :
    ∀ l : List (String × Grid), k ∉ storeKeys l → lookupLast l k = none := by
  intro l
  induction l with
  | nil => intro _; rfl
  | cons p rest ih =>
      intro h
      have h1 : k ∉ storeKeys rest := by
        intro hm
        exact h (by rw [storeKeys, List.map_cons]; exact List.mem_cons_of_mem _ hm)
      have h2 : (p.1 == k) = false := by
        cases hp : (p.1 == k) with
        | false => rfl
        | true =>
            exact absurd
              (by rw [storeKeys, List.map_cons, eq_of_beq hp]; exact List.mem_cons_self _ _) h
      show (lookupLast rest k).or _ = none
      rw [ih h1, h2]
      rfl

/-- With unique keys, the last binding is the first (and only) binding. -/
theorem lookupLast_of_nodupKeys (k : String) :
    ∀ l : List (String × Grid), (storeKeys l).Nodup → lookupLast l k = storeLookup l k := by
  intro l
  induction l with
  | nil => intro _; rfl
  | cons p rest ih =>
      intro h
      rw [storeKeys, List.map_cons] at h
      obtain ⟨hnm, hnd⟩ := List.nodup_cons.mp h
      rw [storeLookup_cons]
      show (lookupLast rest k).or _ = _
      cases hp : (p.1 == k) with
      | true =>
          have : k ∉ storeKeys rest := by rw [← eq_of_beq hp]; exact hnm
          rw [lookupLast_eq_none k rest this]
          rfl
      | false =>
          rw [ih hnd]
          simp

/-- One-step unfolding of the scanning loop on a remaining row. -/
theorem segmentFrom_cons (df : Grid) (r : Row) (rest : List Row) (i : Nat)
    (cur : Option (String × Nat)) (tables : List (String × Grid)) :
    segmentFrom df (r :: rest) i cur tables =
      if isMarker r then
        segmentFrom df rest (i + 1) (some (markerName r, i))
          (match cur with
           | some q => dinsert q.1 (clean_table (listSlice df q.2 i)) tables
           | none => tables)
      else segmentFrom df rest (i + 1) cur tables := by
  cases cur with
  | none => rfl
  | some q => cases q; rfl

/-- One-step unfolding of the marker-index scan. -/
theorem markerIdxsFrom_cons (i : Nat) (r : Row) (rest : List Row) :
    markerIdxsFrom i (r :: rest) =
      if isMarker r then i :: markerIdxsFrom (i + 1) rest
      else markerIdxsFrom (i + 1) rest := rfl

/-- With no markers ahead and no open table, the scan adds nothing. -/
theorem segmentFrom_no_markers (df : Grid) :
    ∀ (rows : List Row) (i : Nat) (tables : List (String × Grid)),
      markerIdxsFrom i rows = [] →
      segmentFrom df rows i none tables = tables := by
  intro rows
  induction rows with
  | nil => intro i tables _; rfl
  | cons r rest ih =>
      intro i tables h
      rw [markerIdxsFrom_cons] at h
      cases hm : isMarker r with
      | true => rw [hm, if_pos rfl] at h; cases h
      | false =>
          rw [hm, if_neg (by simp)] at h
          rw [segmentFrom_cons, hm, if_neg (by simp)]
          exact ih (i + 1) tables h

/-- The scanning loop equals folding the cleaned spec segmentation, segment
by segment, into the dict. -/
theorem segmentFrom_eq_segs (df : Grid) :
    ∀ (rows : List Row) (i : Nat) (cur : Option (String × Nat)) (tables : List (String × Grid)),
      rows = df.drop i →
      (∀ n s, cur = some (n, s) → n = nameAt df s) →
      segmentFrom df rows i cur tables =
        (segsOf df (curStarts cur ++ markerIdxsFrom i rows)).foldl
          (fun d p => dinsert p.1 (clean_table p.2) d) tables := by
  intro rows
  induction rows with
  | nil =>
      intro i cur tables _ hcur
      cases cur with
      | none => rfl
      | some q =>
          obtain ⟨n, s⟩ := q
          rw [hcur n s rfl]
          rfl
  | cons r rest ih =>
      intro i cur tables hrows hcur
      obtain ⟨hget, hdrop, _⟩ := drop_eq_cons_parts ([] : Row) df i r rest hrows.symm
      rw [segmentFrom_cons, markerIdxsFrom_cons]
      cases hm : isMarker r with
      | false =>
          rw [if_neg (by simp), if_neg (by simp)]
          exact ih (i + 1) cur tables hdrop.symm hcur
      | true =>
          rw [if_pos rfl, if_pos rfl]
          have hname : markerName r = nameAt df i := by rw [nameAt, hget]
          cases cur with
          | none =>
              rw [ih (i + 1) (some (markerName r, i)) tables hdrop.symm
                (by intro n s hns; cases hns; exact hname.symm ▸ rfl)]
              rfl
          | some q =>
              obtain ⟨n, s⟩ := q
              rw [ih (i + 1) (some (markerName r, i))
                (dinsert n (clean_table (listSlice df s i)) tables) hdrop.symm
                (by intro n2 s2 hns; cases hns; exact hname.symm ▸ rfl)]
              rw [hcur n s rfl]
              rfl

/-- Every table the scan inserts is a cleaned slice `[s, e)` starting at a
marker row `s`. -/
theorem segmentFrom_mem (df : Grid) :
    ∀ (rows : List Row) (i : Nat) (cur : Option (String × Nat))
      (tables : List (String × Grid)) (p : String × Grid),
      rows = df.drop i →
      (∀ n s, cur = some (n, s) → s < i ∧ s < df.length ∧ isMarker (df.getD s []) = true) →
      p ∈ segmentFrom df rows i cur tables →
      p ∈ tables ∨
        ∃ s e, s < e ∧ s < df.length ∧ isMarker (df.getD s []) = true ∧
          p.2 = clean_table (listSlice df s e) := by
  intro rows
  induction rows with
  | nil =>
      intro i cur tables p _ hcur hp
      cases cur with
      | none => left; exact hp
      | some q =>
          obtain ⟨n, s⟩ := q
          obtain ⟨_, h2, h3⟩ := hcur n s rfl
          rcases mem_dinsert _ _ _ _ hp with he | hm
          · right; exact ⟨s, df.length, h2, h2, h3, by rw [he]⟩
          · left; exact hm
  | cons r rest ih =>
      intro i cur tables p hrows hcur hp
      obtain ⟨hget, hdrop, hlen⟩ := drop_eq_cons_parts ([] : Row) df i r rest hrows.symm
      rw [segmentFrom_cons] at hp
      cases hm : isMarker r with
      | false =>
          rw [hm, if_neg (by simp)] at hp
          exact ih (i + 1) cur tables p hdrop.symm
            (fun n s hns =>
              let h := hcur n s hns
              ⟨Nat.lt_succ_of_lt h.1, h.2.1, h.2.2⟩) hp
      | true =>
          rw [hm, if_pos rfl] at hp
          have hcur2 : ∀ (n : String) (s : Nat),
              (some (markerName r, i) : Option (String × Nat)) = some (n, s) →
              s < i + 1 ∧ s < df.length ∧ isMarker (df.getD s []) = true := by
            intro n s hns
            cases hns
            exact ⟨Nat.lt_succ_self i, hlen, by rw [hget]; exact hm⟩
          cases cur with
          | none =>
              exact ih (i + 1) (some (markerName r, i)) tables p hdrop.symm hcur2 hp
          | some q =>
              obtain ⟨n, s⟩ := q
              obtain ⟨h1, h2, h3⟩ := hcur n s rfl
              rcases ih (i + 1) (some (markerName r, i))
                  (dinsert n (clean_table (listSlice df s i)) tables) p hdrop.symm hcur2 hp with
                hin | hex
              · rcases mem_dinsert _ _ _ _ hin with he | hmem
                · right; exact ⟨s, i, h1, h2, h3, by rw [he]⟩
                · left; exact hmem
              · right; exact hex

/-- A marker row is not entirely empty. -/
theorem rowAllEmpty_false_of_marker (r : Row) (h : isMarker r = true) :
    rowAllEmpty r = false := by
  cases r with
  | nil => cases h
  | cons c t =>
      cases c with
      | empty => cases h
      | num q => cases h
      | text s => rfl

/-- A grid with a non-entirely-empty row cleans to at least one row. -/
theorem clean_table_length_pos (g : Grid) (r : Row) (hr : r ∈ g)
    (hne : rowAllEmpty r = false) : 0 < (clean_table g).length := by
  have hmem : r ∈ dropEmptyRows g :=
    List.mem_filter.mpr ⟨hr, by rw [hne]; rfl⟩
  rw [clean_table, dropEmptyCols, List.length_map]
  exact List.length_pos.mpr (List.ne_nil_of_mem hmem)

/-- Folding assignments over bindings never yields an empty dict unless both
the bindings and the accumulator are empty. -/
theorem foldl_dinsert_ne_nil (f : (String × Grid) → Grid) :
    ∀ (l d : List (String × Grid)), d ≠ [] ∨ l ≠ [] →
      l.foldl (fun acc q => dinsert q.1 (f q) acc) d ≠ [] := by
  intro l
  induction l with
  | nil =>
      intro d h
      rcases h with h | h
      · exact h
      · exact absurd rfl h
  | cons q l ih =>
      intro d _
      exact ih (dinsert q.1 (f q) d) (Or.inl (dinsert_ne_nil _ _ _))

/-- The spec segmentation of a non-empty marker list is non-empty. -/
theorem segsOf_ne_nil (g : Grid) (i : Nat) (rest : List Nat) :
    segsOf g (i :: rest) ≠ [] := by
  cases rest with
  | nil => simp [segsOf]
  | cons j rest => simp [segsOf]

/-- A marker-less sheet becomes one fallback table of the cleaned whole
sheet. -/
theorem identify_of_no_markers (df : Grid) (n : String) (h : markerIdxs df = []) :
    identify_tables_in_sheet df n = [(fallbackName n, clean_table df)] := by
  have hseg : segmentFrom df df 0 none [] = [] :=
    segmentFrom_no_markers df df 0 [] h
  unfold identify_tables_in_sheet
  rw [hseg]
  rfl

/-- With at least one marker, `identify_tables_in_sheet` is the fold of the
cleaned spec segments into the dict. -/
theorem identify_of_markers (df : Grid) (n : String) (h : markerIdxs df ≠ []) :
    identify_tables_in_sheet df n =
      (segmentsSpec df).foldl (fun d p => dinsert p.1 (clean_table p.2) d) [] := by
  have hseg := segmentFrom_eq_segs df df 0 none []
    (List.drop_zero df).symm (by intro n s hns; cases hns)
  have hne : (segmentsSpec df).foldl (fun d p => dinsert p.1 (clean_table p.2) d) [] ≠ [] := by
    cases hmi : markerIdxs df with
    | nil => exact absurd hmi h
    | cons i rest =>
        have : segmentsSpec df ≠ [] := by
          rw [segmentsSpec, hmi]
          exact segsOf_ne_nil df i rest
        cases hs : segmentsSpec df with
        | nil => exact absurd hs this
        | cons a l =>
            rw [List.foldl_cons]
            exact foldl_dinsert_ne_nil (fun p => clean_table p.2) l _
              (Or.inl (dinsert_ne_nil _ _ _))
  unfold identify_tables_in_sheet
  rw [hseg]
  show (if ((segmentsSpec df).foldl (fun d p => dinsert p.1 (clean_table p.2) d) []).isEmpty = true
      then [(fallbackName n, clean_table df)]
      else (segmentsSpec df).foldl (fun d p => dinsert p.1 (clean_table p.2) d) []) = _
  cases hres : (segmentsSpec df).foldl (fun d p => dinsert p.1 (clean_table p.2) d) [] with
  | nil => exact absurd hres hne
  | cons a l => rfl

/-- Each member row's length bounds the grid width. -/
theorem length_le_gridWidth (g : Grid) (r : Row) (hr : r ∈ g) : r.length ≤ gridWidth g := by
  induction g with
  | nil => cases hr
  | cons x xs ih =>
      rcases List.mem_cons.mp hr with h | h
      · rw [h]; exact le_max_left _ _
      · exact le_trans (ih h) (le_max_right _ _)

/-- A not-entirely-empty row has a non-empty cell at some position. -/
theorem exists_nonEmpty_getD (r : Row) (h : rowAllEmpty r = false) :
    ∃ j, j < r.length ∧ (r.getD j Cell.empty == Cell.empty) = false := by
  induction r with
  | nil => cases h
  | cons c t ih =>
      rw [rowAllEmpty, List.all_cons] at h
      cases hc : (c == Cell.empty) with
      | false =>
          exact ⟨0, Nat.succ_pos _, by rw [List.getD_cons_zero]; exact hc⟩
      | true =>
          rw [hc, Bool.true_and] at h
          obtain ⟨j, hj, hne⟩ := ih h
          exact ⟨j + 1, Nat.succ_lt_succ hj, by rw [List.getD_cons_succ]; exact hne⟩

/-- A column with a witnessing row is non-empty. -/
theorem colNonEmpty_of_row (g : Grid) (r : Row) (j : Nat) (hr : r ∈ g)
    (hne : (r.getD j Cell.empty == Cell.empty) = false) : colNonEmpty g j = true := by
  rw [colNonEmpty, List.any_eq_true]
  exact ⟨r, hr, by rw [hne]; rfl⟩

/-- An in-width non-empty column index is kept. -/
theorem mem_keptCols (g : Grid) (j : Nat) (hj : j < gridWidth g)
    (hc : colNonEmpty g j = true) : j ∈ keptCols g :=
  List.mem_filter.mpr ⟨List.mem_range.mpr hj, hc⟩

/-- Projecting a not-entirely-empty row of `g` onto the kept columns leaves
it not entirely empty. -/
theorem rowAllEmpty_clean_row (g : Grid) (r : Row) (hr : r ∈ g)
    (hne : rowAllEmpty r = false) :
    rowAllEmpty ((keptCols g).map (fun j => r.getD j Cell.empty)) = false := by
  obtain ⟨j0, hj0, hc⟩ := exists_nonEmpty_getD r hne
  have hjw : j0 < gridWidth g := lt_of_lt_of_le hj0 (length_le_gridWidth g r hr)
  have hjK : j0 ∈ keptCols g := mem_keptCols _ _ hjw (colNonEmpty_of_row g r j0 hr hc)
  cases hall : rowAllEmpty ((keptCols g).map (fun j => r.getD j Cell.empty)) with
  | false => rfl
  | true =>
      rw [rowAllEmpty, List.all_eq_true] at hall
      have := hall (r.getD j0 Cell.empty) (List.mem_map.mpr ⟨j0, hjK, rfl⟩)
      rw [hc] at this
      cases this

/-- Cleaning a grid leaves no entirely-empty row, so the row pass of a
second cleaning does nothing. -/
theorem dropEmptyRows_clean (g : Grid) :
    dropEmptyRows (clean_table g) = clean_table g := by
  apply List.filter_eq_self.mpr
  intro r2 hr2
  rw [clean_table, dropEmptyCols] at hr2
  obtain ⟨r, hr, hre⟩ := List.mem_map.mp hr2
  have hne : rowAllEmpty r = false := by
    have hmf := (List.mem_filter.mp hr).2
    cases h2 : rowAllEmpty r with
    | false => rfl
    | true => rw [h2] at hmf; cases hmf
  rw [← hre, rowAllEmpty_clean_row (dropEmptyRows g) r hr hne]
  rfl

/-- The width of a non-empty grid of constant-length rows. -/
theorem gridWidth_const (g : Grid) (n : Nat) (h : ∀ r ∈ g, r.length = n)
    (hne : g ≠ []) : gridWidth g = n := by
  induction g with
  | nil => exact absurd rfl hne
  | cons x xs ih =>
      show max x.length (gridWidth xs) = n
      rw [h x (List.mem_cons_self _ _)]
      cases xs with
      | nil => simp [gridWidth]
      | cons y ys =>
          rw [ih (fun r hr => h r (List.mem_cons_of_mem _ hr)) (by simp)]
          exact Nat.max_self n

/-- Selecting all positions of a row reproduces the row. -/
theorem map_range_getD (r : Row) (n : Nat) (h : r.length = n) :
    (List.range n).map (fun j => r.getD j Cell.empty) = r := by
  apply List.ext_getElem
  · rw [List.length_map, List.length_range, h]
  · intro i h1 h2
    rw [List.getElem_map, List.getElem_range]
    exact List.getD_eq_getElem r Cell.empty h2

/-- After a clean, every column position is non-empty, so the column pass of
a second cleaning keeps every position. -/
theorem keptCols_clean (g : Grid) :
    keptCols (clean_table g) = List.range (keptCols (dropEmptyRows g)).length := by
  by_cases hg1 : dropEmptyRows g = []
  · have hc : clean_table g = [] := by
      rw [clean_table, dropEmptyCols, hg1]; rfl
    rw [hc, hg1]
    rfl
  · have hlen : ∀ r ∈ clean_table g, r.length = (keptCols (dropEmptyRows g)).length := by
      intro r hr
      rw [clean_table, dropEmptyCols] at hr
      obtain ⟨r0, _, hre⟩ := List.mem_map.mp hr
      rw [← hre, List.length_map]
    have hcne : clean_table g ≠ [] := by
      rw [clean_table, dropEmptyCols]
      intro hmap
      exact hg1 (List.map_eq_nil_iff.mp hmap)
    have hw : gridWidth (clean_table g) = (keptCols (dropEmptyRows g)).length :=
      gridWidth_const _ _ hlen hcne
    rw [keptCols, hw]
    apply List.filter_eq_self.mpr
    intro p hp
    have hpl : p < (keptCols (dropEmptyRows g)).length := List.mem_range.mp hp
    have hjK : (keptCols (dropEmptyRows g)).get ⟨p, hpl⟩ ∈ keptCols (dropEmptyRows g) :=
      List.get_mem _ _ _
    have hcol := (List.mem_filter.mp hjK).2
    rw [colNonEmpty, List.any_eq_true] at hcol
    obtain ⟨r, hr, hrne⟩ := hcol
    rw [colNonEmpty, List.any_eq_true]
    refine ⟨(keptCols (dropEmptyRows g)).map (fun j => r.getD j Cell.empty), ?_, ?_⟩
    · rw [clean_table, dropEmptyCols]
      exact List.mem_map.mpr ⟨r, hr, rfl⟩
    · have hplen : p < ((keptCols (dropEmptyRows g)).map (fun j => r.getD j Cell.empty)).length := by
        rw [List.length_map]; exact hpl
      rw [List.getD_eq_getElem _ _ hplen, List.getElem_map]
      exact hrne

/-- Cleaning is idempotent. -/
theorem clean_table_idempotent (g : Grid) :
    clean_table (clean_table g) = clean_table g := by
  have hlen : ∀ r ∈ clean_table g, r.length = (keptCols (dropEmptyRows g)).length := by
    intro r hr
    rw [clean_table, dropEmptyCols] at hr
    obtain ⟨r0, _, hre⟩ := List.mem_map.mp hr
    rw [← hre, List.length_map]
  conv_lhs => rw [clean_table]
  rw [dropEmptyRows_clean, dropEmptyCols, keptCols_clean]
  have hid : ∀ r ∈ clean_table g,
      (List.range (keptCols (dropEmptyRows g)).length).map (fun j => r.getD j Cell.empty) = r :=
    fun r hr => map_range_getD r _ (hlen r hr)
  rw [List.map_congr_left hid]
  exact List.map_id _

/-- The row pass of cleaning, characterized by the ascending kept indices. -/
theorem dropEmptyRows_eq_keptRows (g : Grid) :
    dropEmptyRows g = (keptRows g).map (fun i => g.getD i []) := by
  rw [dropEmptyRows, keptRows]
  exact filter_eq_map_getD ([] : Row) (fun r => !(rowAllEmpty r)) g

/-- The spec's stripping instruction agrees with the source's replace-chain
followed by strip. -/
theorem specStrip_eq_cleanValue (s : String) : specStrip s = cleanValue s := by
  rw [specStrip, cleanValue, stripSpecial]
  congr 1
  apply List.filter_congr
  intro c _
  by_cases e1 : c = '%'
  · subst e1; rfl
  · by_cases e2 : c = '$'
    · subst e2; rfl
    · by_cases e3 : c = ','
      · subst e3; rfl
      · simp [e1, e2, e3]

/-- The spec's per-cell coercion agrees with the source's contribution. -/
theorem specCellValue_eq (c : Cell) : specCellValue c = cellContribution c := by
  cases c with
  | empty => rfl
  | num q => rfl
  | text s =>
      show (if (specStrip s).isEmpty then 0 else (parseFloat? (specStrip s)).getD 0) = _
      rw [specStrip_eq_cleanValue, cellContribution_text]
      cases parseFloat? (cleanValue s) <;> rfl

/-- The source's row-matching predicate is the spec's label comparison. -/
theorem findRow_eq_spec (df : Grid) (row_name : String) :
    findRow df row_name = df.find? (fun row => rowLabel? row == some row_name) := by
  rw [findRow]
  have hpred : (fun row : Row =>
      match row.head? with
      | some c => !(c == Cell.empty) && (cellToStr c == row_name)
      | none => false) = (fun row : Row => rowLabel? row == some row_name) := by
    funext row
    cases hh : row.head? with
    | none => simp [rowLabel?, hh]
    | some c =>
        simp only [rowLabel?, hh]
        cases hc : (c == Cell.empty) with
        | true => rfl
        | false => rfl
  rw [hpred]

/-- Members of an updated store come from the update or from the base. -/
theorem mem_updateStore (entries : List (String × Grid)) :
    ∀ (acc : List (String × Grid)) (p : String × Grid),
      p ∈ updateStore acc entries → p ∈ acc ∨ p ∈ entries := by
  induction entries with
  | nil => intro acc p h; left; exact h
  | cons q rest ih =>
      intro acc p h
      rcases ih (dinsert q.1 q.2 acc) p h with h2 | h2
      · rcases mem_dinsert _ _ _ _ h2 with h3 | h3
        · right; rw [h3]; exact List.mem_cons_self _ _
        · left; exact h3
      · right; exact List.mem_cons_of_mem _ h2

/-- Every table of the final store was produced by some sheet's
segmentation. -/
theorem mem_buildStore (wb : List (String × Grid)) (p : String × Grid)
    (hp : p ∈ buildStore wb) :
    ∃ sh ∈ wb, p ∈ identify_tables_in_sheet sh.2 sh.1 := by
  suffices h : ∀ (wbl acc : List (String × Grid)),
      p ∈ wbl.foldl (fun acc sh => updateStore acc (identify_tables_in_sheet sh.2 sh.1)) acc →
      p ∈ acc ∨ ∃ sh ∈ wbl, p ∈ identify_tables_in_sheet sh.2 sh.1 by
    rcases h wb [] hp with h2 | h2
    · cases h2
    · exact h2
  intro wbl
  induction wbl with
  | nil => intro acc h; left; exact h
  | cons sh wbl ih =>
      intro acc h
      rcases ih (updateStore acc (identify_tables_in_sheet sh.2 sh.1)) h with h2 | h2
      · rcases mem_updateStore _ _ _ h2 with h3 | h3
        · left; exact h3
        · right; exact ⟨sh, List.mem_cons_self _ _, h3⟩
      · obtain ⟨sh2, hsh2, hp2⟩ := h2
        right; exact ⟨sh2, List.mem_cons_of_mem _ hsh2, hp2⟩

/-- Updating a store realizes last-write-wins over the update's bindings. -/
theorem storeLookup_updateStore (acc entries : List (String × Grid)) (k : String) :
    storeLookup (updateStore acc entries) k =
      (lookupLast entries k).or (storeLookup acc k) := by
  rw [updateStore, storeLookup_foldl_dinsert Prod.snd]
  have hmap : entries.map (fun q : String × Grid => (q.1, Prod.snd q)) = entries := by
    simp
  rw [hmap]

/-- The keys of one sheet's identified tables are unique (it is a dict). -/
theorem identify_keysNodup (df : Grid) (n : String) :
    (storeKeys (identify_tables_in_sheet df n)).Nodup := by
  by_cases h : markerIdxs df = []
  · rw [identify_of_no_markers df n h]
    simp [storeKeys]
  · rw [identify_of_markers df n h]
    exact keysNodup_foldl_dinsert (fun p => clean_table p.2) (segmentsSpec df) []
      (by simp [storeKeys])

/-- A sheet's dict of tables answers lookups by the last occurrence among
its spec segments. -/
theorem storeLookup_identify (df : Grid) (n k : String) :
    storeLookup (identify_tables_in_sheet df n) k = lookupLast (sheetSegs df n) k := by
  by_cases h : markerIdxs df = []
  · rw [identify_of_no_markers df n h, sheetSegs, if_pos h]
    cases hk : (fallbackName n == k) with
    | true => simp [lookupLast, storeLookup_cons, storeLookup, hk]
    | false => simp [lookupLast, storeLookup_cons, storeLookup, hk]
  · rw [identify_of_markers df n h, sheetSegs, if_neg h, storeLookup_foldl_dinsert]
    rw [show storeLookup ([] : List (String × Grid)) k = none from rfl, Option.or_none]

/-- The whole store answers lookups by the last occurrence among all
segments of all sheets: last-write-wins. -/
theorem storeLookup_buildStore (wb : List (String × Grid)) (k : String) :
    storeLookup (buildStore wb) k = lookupLast (allSegments wb) k := by
  suffices h : ∀ (wbl acc : List (String × Grid)),
      storeLookup
          (wbl.foldl (fun acc sh => updateStore acc (identify_tables_in_sheet sh.2 sh.1)) acc) k
        = (lookupLast (allSegments wbl) k).or (storeLookup acc k) by
    have h2 := h wb []
    rw [show storeLookup ([] : List (String × Grid)) k = none from rfl, Option.or_none] at h2
    exact h2
  intro wbl
  induction wbl with
  | nil => intro acc; rfl
  | cons sh wbl ih =>
      intro acc
      rw [show allSegments (sh :: wbl) = sheetSegs sh.2 sh.1 ++ allSegments wbl from rfl]
      rw [lookupLast_append, Option.or_assoc]
      rw [List.foldl_cons, ih (updateStore acc (identify_tables_in_sheet sh.2 sh.1))]
      congr 1
      rw [storeLookup_updateStore]
      congr 1
      rw [← storeLookup_identify sh.2 sh.1 k]
      exact lookupLast_of_nodupKeys k _ (identify_keysNodup sh.2 sh.1)

/-- Unfolding `calculate_row_sum` when the table is absent. -/
theorem calculate_row_sum_none (store : List (String × Grid)) (t r : String)
    (h : storeLookup store t = none) :
    calculate_row_sum store t r = Except.error QueryError.tableNotFound := by
  unfold calculate_row_sum
  rw [h]

/-- Unfolding `calculate_row_sum` when the table is present. -/
theorem calculate_row_sum_some (store : List (String × Grid)) (t r : String) (g : Grid)
    (h : storeLookup store t = some g) :
    calculate_row_sum store t r =
      (match findRow g r with
       | none => Except.error QueryError.rowNotFound
       | some target_row =>
           Except.ok ((target_row.drop 1).foldl (fun acc v => acc + cellContribution v) 0)) := by
  unfold calculate_row_sum
  rw [h]

/-- Unfolding `get_table_row_names` when the table is absent. -/
theorem get_table_row_names_none (store : List (String × Grid)) (t : String)
    (h : storeLookup store t = none) :
    get_table_row_names store t = Except.error QueryError.tableNotFound := by
  unfold get_table_row_names
  rw [h]

/-- Unfolding `get_table_row_names` when the table is present. -/
theorem get_table_row_names_some (store : List (String × Grid)) (t : String) (g : Grid)
    (h : storeLookup store t = some g) :
    get_table_row_names store t =
      (if g.isEmpty then Except.ok []
       else Except.ok (g.filterMap (fun row =>
         match row.head? with
         | some c => if c == Cell.empty then none else some (cellToStr c)
         | none => none))) := by
  unfold get_table_row_names
  rw [h]

/-- C1: for every store, table name and row name, `calculate_row_sum` does
exactly what the specification's `sum_row` describes: it scans the table's
rows in order for the first whose non-empty first cell's text representation
equals the row name (`NotFound(row)` if none, `NotFound(table)` for an
absent table), and sums the remaining cells, a numeric cell used directly, a
text cell stripped of `%`, `$`, `,` and surrounding whitespace then parsed
as a float, an empty or unparsable remainder contributing 0, a row with no
numeric cells summing to 0. -/
theorem C1_sum_row_matches_spec (tables : List (String × Grid)) (t r : String) :
    calculate_row_sum tables t r = sum_row_spec tables t r := by
  cases hl : storeLookup tables t with
  | none =>
      rw [calculate_row_sum_none tables t r hl]
      unfold sum_row_spec
      rw [hl]
  | some df =>
      rw [calculate_row_sum_some tables t r df hl]
      have hs : sum_row_spec tables t r =
          (match df.find? (fun row => rowLabel? row == some r) with
           | none => Except.error QueryError.rowNotFound
           | some row => Except.ok ((row.drop 1).map specCellValue).sum) := by
        unfold sum_row_spec
        rw [hl]
      rw [hs, findRow_eq_spec]
      cases hf : df.find? (fun row => rowLabel? row == some r) with
      | none => rfl
      | some target_row =>
          show Except.ok _ = Except.ok _
          congr 1
          rw [foldl_add_contribution cellContribution (target_row.drop 1) 0, zero_add]
          exact congrArg List.sum (List.map_congr_left (fun c _ => (specCellValue_eq c).symm))

/-- C4: cleaning a sub-grid is idempotent: removing all-empty rows, then
all-empty columns, then renumbering, applied a second time, changes
nothing. -/
theorem C4_clean_idempotent (g : Grid) : clean_table (clean_table g) = clean_table g :=
  clean_table_idempotent g

/-- C5: the cleaner returns the selection of exactly the not-entirely-empty
rows and, over those, exactly the not-entirely-empty columns, both in
ascending (order-preserving) index order, with row indices renumbered
contiguously from 0 (positional representation); the input is not mutated
(the embedding is pure and the input grid is untouched). -/
theorem C5_clean_characterization (g : Grid) :
    clean_table g =
      (keptRows g).map (fun i =>
        (keptCols (dropEmptyRows g)).map (fun j => (g.getD i []).getD j Cell.empty)) ∧
    List.Pairwise (· < ·) (keptRows g) ∧
    List.Pairwise (· < ·) (keptCols (dropEmptyRows g)) ∧
    (∀ i, i < g.length → (i ∈ keptRows g ↔ rowAllEmpty (g.getD i []) = false)) ∧
    (∀ j, j < gridWidth (dropEmptyRows g) →
      (j ∈ keptCols (dropEmptyRows g) ↔ colNonEmpty (dropEmptyRows g) j = true)) := by
  refine ⟨?_, ?_, ?_, ?_, ?_⟩
  · have key : ∀ K : List Nat,
        (dropEmptyRows g).map (fun r => K.map (fun j => r.getD j Cell.empty)) =
          (keptRows g).map (fun i => K.map (fun j => (g.getD i []).getD j Cell.empty)) := by
      intro K
      rw [dropEmptyRows_eq_keptRows, List.map_map]
      rfl
    rw [clean_table, dropEmptyCols]
    exact key (keptCols (dropEmptyRows g))
  · exact List.Pairwise.sublist (List.filter_sublist _) (List.pairwise_lt_range _)
  · exact List.Pairwise.sublist (List.filter_sublist _) (List.pairwise_lt_range _)
  · intro i hi
    constructor
    · intro hmem
      have hf := (List.mem_filter.mp hmem).2
      cases hra : rowAllEmpty (g.getD i []) with
      | false => rfl
      | true => rw [hra] at hf; cases hf
    · intro hra
      exact List.mem_filter.mpr ⟨List.mem_range.mpr hi, by rw [hra]; rfl⟩
  · intro j hj
    constructor
    · intro hmem
      exact (List.mem_filter.mp hmem).2
    · intro hc
      exact List.mem_filter.mpr ⟨List.mem_range.mpr hj, hc⟩

/-- C9: the Table Store answers every lookup with the table of the LAST
occurrence of that name among all derived tables, in row order within a
sheet and sheet-iteration order across sheets: duplicate derived names are
resolved last-write-wins. -/
theorem C9_last_write_wins (wb : List (String × Grid)) (k : String) :
    storeLookup (buildStore wb) k = lookupLast (allSegments wb) k :=
  storeLookup_buildStore wb k

/-- Either the scan produced the tables, or the sheet fell back to the whole
grid. -/
theorem identify_mem_cases (df : Grid) (n : String) (p : String × Grid)
    (hp : p ∈ identify_tables_in_sheet df n) :
    p ∈ segmentFrom df df 0 none [] ∨ p = (fallbackName n, clean_table df) := by
  simp only [identify_tables_in_sheet] at hp
  by_cases hseg : (segmentFrom df df 0 none []).isEmpty = true
  · rw [if_pos hseg] at hp
    right
    exact List.mem_singleton.mp hp
  · rw [if_neg hseg] at hp
    left
    exact hp

/-- C2: for every sheet grid with at least one table-start marker, the single
top-to-bottom pass produces exactly the tables of the spec segmentation:
a row is a marker iff its first cell is a text cell whose trimmed text is
non-empty; each marker at row `i` closes the table open since the previous
marker `j` as rows `[j, i)`, opens a table named by the trimmed marker text
at row `i`, and the end of the scan closes the open table as
`[j, end-of-sheet)` — each closed sub-grid being cleaned and assigned into
the sheet's dict in that order. -/
theorem C2_segmentation_pass (g : Grid) (sheet : String) (h : markerIdxs g ≠ []) :
    identify_tables_in_sheet g sheet =
      (segmentsSpec g).foldl (fun d p => dinsert p.1 (clean_table p.2) d) [] ∧
    ∀ r : Row, isMarker r = true ↔
      ∃ s, r.head? = some (Cell.text s) ∧ pyStripStr s ≠ "" := by
  constructor
  · exact identify_of_markers g sheet h
  · intro r
    constructor
    · intro hm
      cases r with
      | nil => cases hm
      | cons c t =>
          cases c with
          | empty => cases hm
          | num q => cases hm
          | text s =>
              refine ⟨s, rfl, ?_⟩
              intro he
              have hl : pyStrip s.toList = [] := by
                have := congrArg String.toList he
                exact this
              have hm2 : isMarker (Cell.text s :: t) = false := by
                show (!(pyStrip s.toList).isEmpty) = false
                rw [hl]
                rfl
              rw [hm2] at hm
              cases hm
    · intro hex
      obtain ⟨s, hs, hne⟩ := hex
      cases r with
      | nil => cases hs
      | cons c t =>
          have hc : c = Cell.text s := by
            have := hs
            rw [List.head?_cons] at this
            injection this
          subst hc
          show (!(pyStrip s.toList).isEmpty) = true
          cases hq : pyStrip s.toList with
          | nil =>
              exfalso
              apply hne
              rw [pyStripStr, hq]
          | cons a l => rfl

/-- C2 witness: a concrete three-row sheet with two markers. -/
theorem C2_segmentation_pass_witness :
    markerIdxs [[Cell.text "A", Cell.text "1"], [Cell.empty, Cell.text "2"], [Cell.text "B"]]
      ≠ [] ∧
    identify_tables_in_sheet
        [[Cell.text "A", Cell.text "1"], [Cell.empty, Cell.text "2"], [Cell.text "B"]] "S" =
      (segmentsSpec
          [[Cell.text "A", Cell.text "1"], [Cell.empty, Cell.text "2"], [Cell.text "B"]]).foldl
        (fun d p => dinsert p.1 (clean_table p.2) d) [] :=
  ⟨by decide,
    (C2_segmentation_pass
      [[Cell.text "A", Cell.text "1"], [Cell.empty, Cell.text "2"], [Cell.text "B"]] "S"
      (by decide)).1⟩

/-- C3 counterexample: a workbook whose only sheet is an empty grid (an empty
worksheet loads as a zero-row frame) puts the fallback table, with zero rows,
into the store: not every stored table has a row. -/
theorem C3_counterexample :
    ¬ ∀ p ∈ buildStore [("Empty", ([] : Grid))], 1 ≤ p.2.length := by
  intro h
  exact absurd (h ("Sheet_Empty", ([] : Grid)) (by decide)) (by decide)

/-- C3 (amended): every Table in the Store has at least one row, PROVIDED
every sheet of the workbook has at least one not-entirely-empty row; the
counterexample shows the unamended claim fails for a sheet with no non-empty
cells, whose fallback table is empty. -/
theorem C3_store_tables_nonempty (wb : List (String × Grid))
    (hw : ∀ sh ∈ wb, ∃ r ∈ sh.2, rowAllEmpty r = false) :
    ∀ p ∈ buildStore wb, 1 ≤ p.2.length := by
  intro p hp
  obtain ⟨sh, hsh, hpid⟩ := mem_buildStore wb p hp
  rcases identify_mem_cases sh.2 sh.1 p hpid with hseg | hfb
  · rcases segmentFrom_mem sh.2 sh.2 0 none [] p (List.drop_zero sh.2).symm
        (by intro n s hns; cases hns) hseg with hin | ⟨s, e, hse, hsl, hsm, hpe⟩
    · cases hin
    · rw [hpe]
      exact clean_table_length_pos (listSlice sh.2 s e) (sh.2.getD s [])
        (getD_mem_listSlice sh.2 s e hse hsl)
        (rowAllEmpty_false_of_marker _ hsm)
  · obtain ⟨r0, hr0, hr0ne⟩ := hw sh hsh
    rw [hfb]
    exact clean_table_length_pos sh.2 r0 hr0 hr0ne

/-- C3 witness: a one-sheet workbook with a non-empty row. -/
theorem C3_store_tables_nonempty_witness :
    (∀ sh ∈ [("S", [[Cell.text "T", Cell.text "1"]])], ∃ r ∈ sh.2, rowAllEmpty r = false) ∧
    ∀ p ∈ buildStore [("S", [[Cell.text "T", Cell.text "1"]])], 1 ≤ p.2.length :=
  ⟨by decide, C3_store_tables_nonempty [("S", [[Cell.text "T", Cell.text "1"]])] (by decide)⟩

/-- C6: the contribution of a numeric-looking text cell to the row sum is
invariant under inserting any occurrence of `%`, `$` or `,` and under
surrounding whitespace, and the cells `" 1,200.50 "`, `"1200.50"` and
`"1200.50%"` all contribute exactly 1200.50 — `%` only removes the symbol
and never scales the value. -/
theorem C6_contribution_invariance :
    (∀ (u v : List Char) (c : Char), c = '%' ∨ c = '$' ∨ c = ',' →
      cellContribution (Cell.text (String.mk (u ++ c :: v))) =
        cellContribution (Cell.text (String.mk (u ++ v)))) ∧
    (∀ w1 w2 s : List Char,
      (∀ c ∈ w1, Char.isWhitespace c = true) →
      (∀ c ∈ w2, Char.isWhitespace c = true) →
      cellContribution (Cell.text (String.mk (w1 ++ s ++ w2))) =
        cellContribution (Cell.text (String.mk s))) ∧
    cellContribution (Cell.text " 1,200.50 ") = 2401 / 2 ∧
    cellContribution (Cell.text "1200.50") = 2401 / 2 ∧
    cellContribution (Cell.text "1200.50%") = 2401 / 2 := by
  refine ⟨?_, ?_, ?_, ?_, ?_⟩
  · intro u v c hc
    exact cellContribution_congr _ _ (cleanValue_insert_special u v c hc)
  · intro w1 w2 s h1 h2
    exact cellContribution_congr _ _ (cleanValue_surround_ws w1 w2 s h1 h2)
  · show (1 : Rat) * (((1200 : Nat) : Rat) + ((50 : Nat) : Rat) / (10 : Rat) ^ (2 : Nat))
        = 2401 / 2
    norm_num
  · show (1 : Rat) * (((1200 : Nat) : Rat) + ((50 : Nat) : Rat) / (10 : Rat) ^ (2 : Nat))
        = 2401 / 2
    norm_num
  · show (1 : Rat) * (((1200 : Nat) : Rat) + ((50 : Nat) : Rat) / (10 : Rat) ^ (2 : Nat))
        = 2401 / 2
    norm_num

/-- C7: a missing table name makes both queries answer `NotFound(table)`
whatever the rows are, and a present table with an unmatched row name makes
the sum query answer the distinct `NotFound(row)`; the operations are pure,
so the store is unchanged. -/
theorem C7_not_found_errors (store : List (String × Grid)) (t1 t2 r : String) (g : Grid)
    (h1 : storeLookup store t1 = none)
    (h2 : storeLookup store t2 = some g)
    (h3 : findRow g r = none) :
    get_table_row_names store t1 = Except.error QueryError.tableNotFound ∧
    calculate_row_sum store t1 r = Except.error QueryError.tableNotFound ∧
    calculate_row_sum store t2 r = Except.error QueryError.rowNotFound := by
  refine ⟨get_table_row_names_none store t1 h1, calculate_row_sum_none store t1 r h1, ?_⟩
  rw [calculate_row_sum_some store t2 r g h2, h3]

/-- C7 witness: a one-table store, an absent table name and an absent row
name. -/
theorem C7_not_found_errors_witness :
    storeLookup [("T", [[Cell.text "a", Cell.text "1"]])] "X" = none ∧
    storeLookup [("T", [[Cell.text "a", Cell.text "1"]])] "T" =
      some [[Cell.text "a", Cell.text "1"]] ∧
    findRow [[Cell.text "a", Cell.text "1"]] "zzz" = none ∧
    (get_table_row_names [("T", [[Cell.text "a", Cell.text "1"]])] "X" =
        Except.error QueryError.tableNotFound ∧
      calculate_row_sum [("T", [[Cell.text "a", Cell.text "1"]])] "X" "zzz" =
        Except.error QueryError.tableNotFound ∧
      calculate_row_sum [("T", [[Cell.text "a", Cell.text "1"]])] "T" "zzz" =
        Except.error QueryError.rowNotFound) :=
  ⟨by decide, by decide, by decide,
    C7_not_found_errors [("T", [[Cell.text "a", Cell.text "1"]])] "X" "T" "zzz"
      [[Cell.text "a", Cell.text "1"]] (by decide) (by decide) (by decide)⟩

/-- C8: a sheet with zero table-start markers segments into exactly one
table holding the (cleaned) whole sheet, named `Sheet_<sheet name>` for a
non-empty sheet name and `Default_Table` otherwise. -/
theorem C8_no_marker_fallback (g : Grid) (sheet_name : String) (h : markerIdxs g = []) :
    identify_tables_in_sheet g sheet_name =
      [((if sheet_name ≠ "" then "Sheet_" ++ sheet_name else "Default_Table"),
        clean_table g)] := by
  rw [identify_of_no_markers g sheet_name h]
  rfl

/-- C8 witness: a numeric-only sheet has no markers. -/
theorem C8_no_marker_fallback_witness :
    markerIdxs [[Cell.num 1, Cell.num 2]] = [] ∧
    identify_tables_in_sheet [[Cell.num 1, Cell.num 2]] "Data" =
      [((if ("Data" : String) ≠ "" then "Sheet_" ++ "Data" else "Default_Table"),
        clean_table [[Cell.num 1, Cell.num 2]])] :=
  ⟨by decide, C8_no_marker_fallback [[Cell.num 1, Cell.num 2]] "Data" (by decide)⟩

/-- C10: every row label listed by `get_table_row_names` is found again by
`calculate_row_sum`: both derive the key by the same text coercion of the
first cell, so the row-not-found branch is unreachable for listed labels. -/
theorem C10_listed_labels_summable (store : List (String × Grid)) (t : String)
    (names : List String) (h : get_table_row_names store t = Except.ok names) :
    ∀ name ∈ names,
      calculate_row_sum store t name ≠ Except.error QueryError.rowNotFound := by
  intro name hname
  cases hl : storeLookup store t with
  | none =>
      rw [get_table_row_names_none store t hl] at h
      cases h
  | some g =>
      rw [get_table_row_names_some store t g hl] at h
      by_cases hgi : g.isEmpty = true
      · rw [if_pos hgi] at h
        injection h with h2
        rw [← h2] at hname
        cases hname
      · rw [if_neg hgi] at h
        injection h with h2
        rw [← h2] at hname
        obtain ⟨row, hrow, hfrow⟩ := List.mem_filterMap.mp hname
        have hpred : (match row.head? with
            | some c => !(c == Cell.empty) && (cellToStr c == name)
            | none => false) = true := by
          cases hh : row.head? with
          | none =>
              simp only [hh] at hfrow
              exact Option.noConfusion hfrow
          | some c =>
              simp only [hh] at hfrow ⊢
              cases hc : (c == Cell.empty) with
              | true => rw [hc, if_pos rfl] at hfrow; cases hfrow
              | false =>
                  rw [hc, if_neg (by simp)] at hfrow
                  injection hfrow with hnm
                  rw [hnm]
                  simp
        cases hf : findRow g name with
        | none =>
            exfalso
            rw [findRow] at hf
            exact absurd hpred (List.find?_eq_none.mp hf row hrow)
        | some tr =>
            rw [calculate_row_sum_some store t name g hl, hf]
            intro hceq
            exact Except.noConfusion hceq

/-- C10 witness: a listed label is summable in a concrete store. -/
theorem C10_listed_labels_summable_witness :
    get_table_row_names [("T", [[Cell.text "a", Cell.text "1"]])] "T" = Except.ok ["a"] ∧
    "a" ∈ ["a"] ∧
    calculate_row_sum [("T", [[Cell.text "a", Cell.text "1"]])] "T" "a" ≠
      Except.error QueryError.rowNotFound :=
  ⟨rfl, by decide,
    C10_listed_labels_summable [("T", [[Cell.text "a", Cell.text "1"]])] "T" ["a"]
      rfl "a" (by decide)⟩
